import Mathlib

/-!
# Verification of the PBA Streamlit glue layer (`extended_mst_app.py`)

A shallow embedding of the Python glue code around the C "extended MST"
solver:

* `generate_input_file` — parses the user's node-weight text (`ID:Weight`
  lines) and edge text (`u,v,w_e` lines) and produces the solver input
  file content (`V E` / weight line / edge lines).
* `run_c_solver` — invokes the C executable; modelled as a function of the
  abstract process outcome.
* `parse_c_output` — parses the solver's report (`TOTAL_COST:` line and the
  `MST_EDGES_START` / `MST_EDGES_END` block).
* the button handler — the display dispatch on the parsed result.

Python strings are modelled as Lean `String`; the string primitives used by
the code (`str.split` on a one-character separator, `str.strip`, `int(...)`,
`str.startswith`, `str(...)` of an integer) are defined structurally over
`String.data` so that concrete inputs evaluate inside the kernel.
-/

/-- Python `s.split(c)` for a single-character separator `c`, on `List Char`:
splitting the empty string yields `[[]]`, i.e. one empty field, exactly as in
Python. -/
def splitOnChar (c : Char) : List Char → List (List Char)
  | [] => [[]]
  | x :: xs =>
    if x = c then [] :: splitOnChar c xs
    else
      match splitOnChar c xs with
      | [] => [[x]]
      | y :: ys => (x :: y) :: ys

/-- Python `s.split(c)` for a single-character separator, on `String`. -/
def pySplit (s : String) (c : Char) : List String :=
  (splitOnChar c s.data).map (fun cs => String.mk cs)

/-- Python `s.strip()`: drop whitespace from both ends.  (Python strips the
unicode whitespace class; the code only ever meets ASCII whitespace, covered
by `Char.isWhitespace`.) -/
def pyStrip (s : String) : String :=
  String.mk (((s.data.dropWhile Char.isWhitespace).reverse.dropWhile
    Char.isWhitespace).reverse)

/-- Decimal digits to the `Nat` they denote (most significant first). -/
def digitsToNat (cs : List Char) : Nat :=
  cs.foldl (fun n c => n * 10 + (c.toNat - 48)) 0

/-- Python `int(s)`: strip whitespace, optional sign, then a nonempty run of
decimal digits; anything else raises `ValueError`, modelled as `none`.
(Python also accepts underscore digit separators and non-ASCII digits; the
code never produces those, and they are not modelled.) -/
def pyInt (s : String) : Option Int :=
  match (pyStrip s).data with
  | [] => none
  | c :: rest =>
    if c = '-' then
      if rest ≠ [] ∧ rest.all Char.isDigit then
        some (-(digitsToNat rest : Int))
      else none
    else if c = '+' then
      if rest ≠ [] ∧ rest.all Char.isDigit then
        some ((digitsToNat rest : Int))
      else none
    else if (c :: rest).all Char.isDigit then
      some ((digitsToNat (c :: rest) : Int))
    else none

/-- Python `s.startswith(p)`. -/
def pyStartsWith (s p : String) : Bool :=
  p.data.isPrefixOf s.data

/-- Python `str(n)` for a natural number, via a fuel-driven digit expansion
(structural, so it reduces in the kernel). -/
def natDigits : Nat → Nat → List Char
  | _, 0 => []
  | n, fuel + 1 =>
    if n < 10 then [Char.ofNat (48 + n)]
    else natDigits (n / 10) fuel ++ [Char.ofNat (48 + n % 10)]

/-- Python `str(n)` for a natural number. -/
def natToString (n : Nat) : String :=
  String.mk (natDigits n (n + 1))

/-- Python `str(i)` for an integer (`str(-3) = "-3"`). -/
def intToString (i : Int) : String :=
  if i < 0 then "-" ++ natToString i.natAbs else natToString i.natAbs

/-- Python `"sep".join(parts)`. -/
def pyJoin (sep : String) : List String → String
  | [] => ""
  | [x] => x
  | x :: y :: ys => x ++ sep ++ pyJoin sep (y :: ys)

/-! ## Python `dict` with `String` keys

Insertion-ordered association list with unique keys: `d[k] = v` updates the
existing entry in place or appends a fresh one, as a Python `dict` does. -/

/-- `d[k] = v` for a string-keyed dict with values in `α`. -/
def dictInsert {α : Type} (d : List (String × α)) (k : String) (v : α) :
    List (String × α) :=
  if d.any (fun p => p.1 = k) then
    d.map (fun p => if p.1 = k then (p.1, v) else p)
  else d ++ [(k, v)]

/-- `d[k]` (as an `Option`; Python raises `KeyError` on a missing key). -/
def dictLookup {α : Type} (d : List (String × α)) (k : String) : Option α :=
  (d.find? (fun p => p.1 = k)).map (fun p => p.2)

/-- Python `k in d`. -/
def dictContains {α : Type} (d : List (String × α)) (k : String) : Bool :=
  d.any (fun p => p.1 = k)

/-! ## `generate_input_file` (extended_mst_app.py lines 14–80) -/

/-- One non-blank line of the node-weights text area:
`node_id, weight = line.split(':')` (exactly one colon, else `ValueError`),
then `node_id.strip()` and `int(weight.strip())`. -/
def parseNodeLine (line : String) : Option (String × Int) :=
  match pySplit line ':' with
  | [idPart, wPart] =>
    match pyInt (pyStrip wPart) with
    | some w => some (pyStrip idPart, w)
    | none => none
  | _ => none

/-- The node-parsing loop of `generate_input_file`, line by line: blank lines
are skipped, each other line is parsed as `ID:Weight`; the accumulator pair
carries `nodes` (every stripped id in order of appearance, duplicates
included) and the `node_weights` dict (duplicates overwrite).  Any malformed
line raises, i.e. yields `none`. -/
def parseNodesGo : List String → List String × List (String × Int) →
    Option (List String × List (String × Int))
  | [], acc => some acc
  | line :: rest, acc =>
    if pyStrip line = "" then parseNodesGo rest acc
    else
      match parseNodeLine line with
      | some (id, w) => parseNodesGo rest (acc.1 ++ [id], dictInsert acc.2 id w)
      | none => none

/-- Step 1 of `generate_input_file`: the node-weight text area parsed into
`(nodes, node_weights)`. -/
def parseNodes (node_weights_str : String) :
    Option (List String × List (String × Int)) :=
  parseNodesGo (pySplit node_weights_str '\n') ([], [])

/-- One non-blank line of the edges text area:
`u, v, w_e = line.split(',')` (exactly two commas), stripped endpoints,
`int(w_e.strip())`. -/
def parseEdgeLine (line : String) : Option (String × String × Int) :=
  match pySplit line ',' with
  | [uPart, vPart, wPart] =>
    match pyInt (pyStrip wPart) with
    | some w => some (pyStrip uPart, pyStrip vPart, w)
    | none => none
  | _ => none

/-- The edge-parsing loop of `generate_input_file`, line by line: blank lines
are skipped; each other line is parsed as `u,v,w_e`; an endpoint missing from
`node_weights` aborts with the failure triple, modelled as `none` (the same
value a parse exception yields). -/
def parseEdgesGo (node_weights : List (String × Int)) :
    List String → List (String × String × Int) →
    Option (List (String × String × Int))
  | [], acc => some acc
  | line :: rest, acc =>
    if pyStrip line = "" then parseEdgesGo node_weights rest acc
    else
      match parseEdgeLine line with
      | some (u, v, w) =>
        if dictContains node_weights u ∧ dictContains node_weights v then
          parseEdgesGo node_weights rest (acc ++ [(u, v, w)])
        else none
      | none => none

/-- Step 2 of `generate_input_file`: the edges text area parsed into the edge
list, each endpoint checked against `node_weights`. -/
def parseEdges (node_weights : List (String × Int)) (edges_str : String) :
    Option (List (String × String × Int)) :=
  parseEdgesGo node_weights (pySplit edges_str '\n') []

/-- `node_map = {name: i for i, name in enumerate(nodes)}`: a duplicated name
keeps its first position in the dict but ends up mapped to its **last**
index. -/
def buildNodeMap (nodes : List String) : List (String × Nat) :=
  nodes.enum.foldl (fun m p => dictInsert m p.2 p.1) []

/-- The loop `for name, idx in node_map.items(): weight_list[idx] =
node_weights[name]`; a missing key would raise (`none`). -/
def setWeights (node_weights : List (String × Int)) :
    List (String × Nat) → List Int → Option (List Int)
  | [], wl => some wl
  | p :: ps, wl =>
    match dictLookup node_weights p.1 with
    | some w => setWeights node_weights ps (wl.set p.2 w)
    | none => none

/-- `weight_list = [0]*V` then the `node_map.items()` loop. -/
def buildWeightList (V : Nat) (node_map : List (String × Nat))
    (node_weights : List (String × Int)) : Option (List Int) :=
  setWeights node_weights node_map (List.replicate V (0 : Int))

/-- The index triples `(node_map[u], node_map[v], w_e)` written for the edge
lines, in input order; a missing key would raise (`none`). -/
def mapEdges (node_map : List (String × Nat)) :
    List (String × String × Int) → Option (List (Nat × Nat × Int))
  | [] => some []
  | e :: es =>
    match dictLookup node_map e.1, dictLookup node_map e.2.1,
        mapEdges node_map es with
    | some ui, some vi, some rest => some ((ui, vi, e.2.2) :: rest)
    | _, _, _ => none

/-- The full content written to `graph_input.txt`:
line 1 `V E`, line 2 the space-joined weight list, then one `u_idx v_idx w_e`
line per edge. -/
def writeContent (nodes : List String) (node_weights : List (String × Int))
    (edges : List (String × String × Int)) : Option String :=
  let V := nodes.length
  let E := edges.length
  let node_map := buildNodeMap nodes
  match buildWeightList V node_map node_weights, mapEdges node_map edges with
  | some weight_list, some idxEdges =>
    some (natToString V ++ " " ++ natToString E ++ "\n"
      ++ pyJoin " " (weight_list.map intToString) ++ "\n"
      ++ String.join (idxEdges.map
          (fun e => natToString e.1 ++ " " ++ natToString e.2.1 ++ " "
            ++ intToString e.2.2 ++ "\n")))
  | _, _ => none

/-- `generate_input_file(node_weights_str, edges_str)`: on success Python
returns `(True, nodes, node_weights)` after writing the input file; every
failure path returns `(False, [], {})`.  Modelled as `some` of the written
file content together with the returned `nodes` and `node_weights`, and
`none` for the failure triple. -/
def generate_input_file (node_weights_str edges_str : String) :
    Option (String × List String × List (String × Int)) :=
  match parseNodes node_weights_str with
  | none => none
  | some (nodes, node_weights) =>
    match parseEdges node_weights edges_str with
    | none => none
    | some edges =>
      match writeContent nodes node_weights edges with
      | none => none
      | some content => some (content, nodes, node_weights)

/-! ## `run_c_solver` (lines 82–100)

The subprocess interaction is modelled by an explicit process outcome:
`subprocess.run(..., check=True)` raises `CalledProcessError` exactly when
the exit code is nonzero, and `FileNotFoundError` when the executable is
missing; both handlers return `None`. -/

/-- Outcome of attempting to execute the C solver. -/
inductive ProcOutcome where
  | exited (code : Int) (stdout stderr : String)
  | notFound
deriving DecidableEq

/-- `run_c_solver()`: the solver's stdout on a zero exit, `None` otherwise. -/
def run_c_solver (p : ProcOutcome) : Option String :=
  match p with
  | .exited code stdout _ => if code = 0 then some stdout else none
  | .notFound => none

/-! ## `parse_c_output` (lines 102–136) -/

/-- One parsed MST edge record, endpoints already translated back to node
names (`name_map.get(idx, str(idx))`). -/
structure MstEdge where
  u : String
  v : String
  w_e : Int
  w_u : Int
  w_v : Int
  C_e : Int
deriving DecidableEq, Repr

/-- `name_map.get(i, str(i))` where `name_map = {i: name for i, name in
enumerate(node_names)}`. -/
def idxName (node_names : List String) (i : Int) : String :=
  if h : 0 ≤ i ∧ i.toNat < node_names.length then
    node_names.get ⟨i.toNat, h.2⟩
  else intToString i

/-- `map(int, parts)` over a list of fields, failing if any field fails. -/
def intFields : List String → Option (List Int)
  | [] => some []
  | s :: ss =>
    match pyInt s, intFields ss with
    | some i, some is => some (i :: is)
    | _, _ => none

/-- An edge line of the solver report: six comma-separated integers
`u_idx,v_idx,w_e,w_u,w_v,C_e` (any other shape raises inside the `try` and
the line is skipped). -/
def parseOutputEdgeLine (line : String) :
    Option (Int × Int × Int × Int × Int × Int) :=
  match intFields (pySplit line ',') with
  | some [a, b, c, d, e, f] => some (a, b, c, d, e, f)
  | _ => none

/-- The record `parse_c_output` appends for a well-formed edge line. -/
def mkMstEdge (node_names : List String)
    (t : Int × Int × Int × Int × Int × Int) : MstEdge :=
  ⟨idxName node_names t.1, idxName node_names t.2.1,
    t.2.2.1, t.2.2.2.1, t.2.2.2.2.1, t.2.2.2.2.2⟩

/-- The record produced from a raw line sitting in the edge block: `some`
exactly when the line parses as six integers. -/
def recordOfLine (node_names : List String) (line : String) :
    Option MstEdge :=
  (parseOutputEdgeLine line).map (mkMstEdge node_names)

/-- One step of the `parse_c_output` loop.  State: `(total_cost, mst_edges,
parsing_edges)`.  A `TOTAL_COST:` line whose payload is not an integer raises
**outside** any `try`, aborting the whole call — modelled as `none`. -/
def parseOutputStep (node_names : List String)
    (st : Option Int × List MstEdge × Bool) (line : String) :
    Option (Option Int × List MstEdge × Bool) :=
  if pyStartsWith line "TOTAL_COST:" then
    match pyInt ((pySplit line ':').getD 1 "") with
    | some t => some (some t, st.2.1, st.2.2)
    | none => none
  else if line = "MST_EDGES_START" then some (st.1, st.2.1, true)
  else if line = "MST_EDGES_END" then some (st.1, st.2.1, false)
  else if st.2.2 then
    match recordOfLine node_names line with
    | some r => some (st.1, st.2.1 ++ [r], st.2.2)
    | none => some st
  else some st

/-- The `for line in lines` loop of `parse_c_output`, line by line. -/
def parseOutputGo (node_names : List String) :
    List String → Option Int × List MstEdge × Bool →
    Option (Option Int × List MstEdge × Bool)
  | [], st => some st
  | line :: rest, st =>
    match parseOutputStep node_names st line with
    | some st2 => parseOutputGo node_names rest st2
    | none => none

/-- `parse_c_output(output, node_names)`: `lines = output.strip().split('\n')`
folded through the state machine; returns `(total_cost, mst_edges)`, or
`none` for the uncaught `ValueError` of a malformed `TOTAL_COST:` payload. -/
def parse_c_output (output : String) (node_names : List String) :
    Option (Option Int × List MstEdge) :=
  (parseOutputGo node_names (pySplit (pyStrip output) '\n')
      (none, [], false)).map
    (fun st => (st.1, st.2.1))

/-! ## Button handler (lines 171–211) -/

/-- What the results section of the page shows. -/
inductive Display where
  /-- `generate_input_file` failed; no results section is rendered. -/
  | inputError
  /-- `run_c_solver` returned `None` or an empty stdout (`if c_output:` is
  false): the results header appears with no parsed content. -/
  | noOutput
  /-- Uncaught exception escaping `parse_c_output`. -/
  | parseException
  /-- `total_cost == -1`: the disconnected-graph error, no edge table and no
  success value. -/
  | disconnected
  /-- Success: total cost and the edge table. -/
  | success (total : Int) (edges : List MstEdge)
  /-- `total_cost is None`: "output could not be parsed". -/
  | parseFailed
deriving DecidableEq

/-- Observable trace of one click of "Calculate Extended MST". -/
structure RunTrace where
  display : Display
  solverInvoked : Bool
  outputParsed : Bool
deriving DecidableEq

/-- The `if st.button(...)` body: generate the input file; only on success
invoke the solver; only on a truthy stdout parse it; then dispatch on
`total_cost`. -/
def button_handler (node_input edge_input : String) (proc : ProcOutcome) :
    RunTrace :=
  match generate_input_file node_input edge_input with
  | none => ⟨.inputError, false, false⟩
  | some (_, nodes, _) =>
    match run_c_solver proc with
    | none => ⟨.noOutput, true, false⟩
    | some out =>
      if out = "" then ⟨.noOutput, true, false⟩
      else
        match parse_c_output out nodes with
        | none => ⟨.parseException, true, true⟩
        | some (total, eds) =>
          if total = some (-1) then ⟨.disconnected, true, true⟩
          else
            match total with
            | some t => ⟨.success t eds, true, true⟩
            | none => ⟨.parseFailed, true, true⟩

/-! ## Graph notions for the written input file (used by C9)

Connectivity of the integer-indexed graph the solver receives, phrased
directly on the written edge triples. -/

/-- `a` and `b` are the two endpoints of some written edge. -/
def edgeAdj (es : List (Nat × Nat × Int)) (a b : Nat) : Prop :=
  ∃ e ∈ es, (e.1 = a ∧ e.2.1 = b) ∨ (e.1 = b ∧ e.2.1 = a)

/-- The graph on vertices `0..V-1` with the written edges is connected. -/
def connectedGraph (V : Nat) (es : List (Nat × Nat × Int)) : Prop :=
  ∀ a, a < V → ∀ b, b < V → Relation.ReflTransGen (edgeAdj es) a b


/-! ## Specification-side helper definitions

Pure restatements of the loops above, used to phrase and prove the claims. -/

/-- A dict built by inserting a pair list left to right (as a Python dict
literal / comprehension does). -/
def dictOf {α : Type} (ps : List (String × α)) : List (String × α) :=
  ps.foldl (fun d p => dictInsert d p.1 p.2) []

/-- The `(id, weight)` pairs of the non-blank node lines, in order; `none` if
any non-blank line is malformed. -/
def parsedNodeLines : List String → Option (List (String × Int))
  | [] => some []
  | l :: rest =>
    if pyStrip l = "" then parsedNodeLines rest
    else
      match parseNodeLine l, parsedNodeLines rest with
      | some p, some ps => some (p :: ps)
      | _, _ => none

/-- The `(u, v, w)` triples of the non-blank edge lines, in order; `none` if
any non-blank line is malformed or references an unknown endpoint. -/
def parsedEdgeLines (node_weights : List (String × Int)) :
    List String → Option (List (String × String × Int))
  | [] => some []
  | l :: rest =>
    if pyStrip l = "" then parsedEdgeLines node_weights rest
    else
      match parseEdgeLine l with
      | some (u, v, w) =>
        if dictContains node_weights u ∧ dictContains node_weights v then
          (parsedEdgeLines node_weights rest).map (fun es => (u, v, w) :: es)
        else none
      | none => none

/-! ## Helper lemmas: the dict model -/

theorem dictLookup_insert {α : Type} (d : List (String × α)) (k : String)
    (v : α) (k2 : String) :
    dictLookup (dictInsert d k v) k2 =
      if k2 = k then some v else dictLookup d k2 := by
  unfold dictLookup dictInsert
  split
  · next h =>
    rw [List.find?_map]
    have hfun : ((fun p : String × α => decide (p.1 = k2)) ∘
        fun p : String × α => if p.1 = k then (p.1, v) else p) =
        fun p : String × α => decide (p.1 = k2) := by
      funext p
      by_cases hpk : p.1 = k <;> simp [hpk]
    rw [hfun]
    by_cases hk : k2 = k
    · subst hk
      have hs : (List.find? (fun p : String × α => decide (p.1 = k2)) d).isSome := by
        rw [List.find?_isSome]
        exact List.any_eq_true.mp h
      obtain ⟨p, hp⟩ := Option.isSome_iff_exists.mp hs
      have hpk : p.1 = k2 := by simpa using List.find?_some hp
      simp [hp, hpk]
    · obtain hnone | ⟨p, hp⟩ :=
        (List.find? (fun p : String × α => decide (p.1 = k2)) d).eq_none_or_eq_some
      · simp [hnone, hk]
      · have hpk : p.1 = k2 := by simpa using List.find?_some hp
        have hne : ¬ p.1 = k := by rw [hpk]; exact hk
        simp [hp, hk, hne]
  · next h =>
    rw [List.find?_append]
    by_cases hk : k2 = k
    · subst hk
      have hnone : List.find? (fun p : String × α => decide (p.1 = k2)) d = none := by
        rw [List.find?_eq_none]
        intro p hp
        simp only [decide_eq_true_eq]
        intro hpk
        exact h (List.any_eq_true.mpr ⟨p, hp, by simp [hpk]⟩)
      simp [hnone, List.find?_cons]
    · have hone : List.find? (fun p : String × α => decide (p.1 = k2)) [(k, v)] = none := by
        rw [List.find?_cons]
        have hdec : decide (k = k2) = false :=
          decide_eq_false (fun h : k = k2 => hk h.symm)
        rw [hdec]
        rfl
      rw [hone]
      obtain hnone | ⟨p, hp⟩ :=
        (List.find? (fun p : String × α => decide (p.1 = k2)) d).eq_none_or_eq_some
      · simp [hnone, hk]
      · simp [hp, hk]

theorem dictLookup_isSome {α : Type} (d : List (String × α)) (k : String) :
    (dictLookup d k).isSome = dictContains d k := by
  unfold dictLookup dictContains
  rw [Option.isSome_map', Bool.eq_iff_iff, List.find?_isSome, List.any_eq_true]

theorem dictContains_insert {α : Type} (d : List (String × α)) (k : String)
    (v : α) (k2 : String) :
    dictContains (dictInsert d k v) k2 =
      if k2 = k then true else dictContains d k2 := by
  rw [← dictLookup_isSome, ← dictLookup_isSome, dictLookup_insert]
  by_cases hk : k2 = k <;> simp [hk]

theorem dictLookup_mem {α : Type} {d : List (String × α)} {k : String}
    {v : α} (h : dictLookup d k = some v) : (k, v) ∈ d := by
  unfold dictLookup at h
  obtain ⟨p, hp, hpv⟩ := Option.map_eq_some'.mp h
  have hpk : p.1 = k := by simpa using List.find?_some hp
  have hmem := List.mem_of_find?_eq_some hp
  have hpkv : p = (k, v) := by
    cases p
    simp only at hpk hpv
    simp [hpk, hpv]
  rwa [hpkv] at hmem

/-! ## Helper lemmas: the parsing loops -/

theorem parseNodesGo_eq (lines : List String) :
    ∀ acc, parseNodesGo lines acc =
      (parsedNodeLines lines).map
        (fun ps => (acc.1 ++ ps.map (fun p => p.1),
          ps.foldl (fun d p => dictInsert d p.1 p.2) acc.2)) := by
  induction lines with
  | nil => intro acc; simp [parseNodesGo, parsedNodeLines]
  | cons l rest ih =>
    intro acc
    by_cases hb : pyStrip l = ""
    · simp only [parseNodesGo, parsedNodeLines, hb, if_true, if_pos]
      exact ih acc
    · cases hp : parseNodeLine l with
      | none => simp [parseNodesGo, parsedNodeLines, hb, hp]
      | some p =>
        obtain ⟨id, w⟩ := p
        simp only [parseNodesGo, parsedNodeLines, hb, if_neg, hp, if_false]
        rw [ih]
        cases hrest : parsedNodeLines rest with
        | none => simp
        | some ps => simp [List.foldl_cons, List.append_assoc]

theorem parseNodes_eq (s : String) :
    parseNodes s = (parsedNodeLines (pySplit s '\n')).map
      (fun ps => (ps.map (fun p => p.1), dictOf ps)) := by
  rw [parseNodes, parseNodesGo_eq]
  rfl

theorem parseEdgesGo_eq (nw : List (String × Int)) (lines : List String) :
    ∀ acc, parseEdgesGo nw lines acc =
      (parsedEdgeLines nw lines).map (fun es => acc ++ es) := by
  induction lines with
  | nil => intro acc; simp [parseEdgesGo, parsedEdgeLines]
  | cons l rest ih =>
    intro acc
    by_cases hb : pyStrip l = ""
    · simp only [parseEdgesGo, parsedEdgeLines, hb, if_true, if_pos]
      exact ih acc
    · cases hp : parseEdgeLine l with
      | none => simp [parseEdgesGo, parsedEdgeLines, hb, hp]
      | some t =>
        obtain ⟨u, v, w⟩ := t
        by_cases hc : dictContains nw u = true ∧ dictContains nw v = true
        · simp only [parseEdgesGo, parsedEdgeLines, hb, if_neg, hp, hc, if_pos,
            not_false_iff]
          rw [ih]
          cases hrest : parsedEdgeLines nw rest with
          | none => simp
          | some es => simp
        · simp [parseEdgesGo, parsedEdgeLines, hb, hp, hc]

theorem parseEdges_eq (nw : List (String × Int)) (s : String) :
    parseEdges nw s = parsedEdgeLines nw (pySplit s '\n') := by
  rw [parseEdges, parseEdgesGo_eq]
  cases h : parsedEdgeLines nw (pySplit s '\n') <;> simp [h]

/-! ## Helper lemmas: `dictOf` -/

theorem dictLookup_foldl_insert {α : Type} (ps : List (String × α)) :
    ∀ (d : List (String × α)) (k : String),
      dictLookup (ps.foldl (fun d p => dictInsert d p.1 p.2) d) k =
        Option.or ((ps.reverse.find? (fun p => decide (p.1 = k))).map
          (fun p => p.2)) (dictLookup d k) := by
  induction ps with
  | nil => intro d k; simp
  | cons p rest ih =>
    intro d k
    rw [List.foldl_cons, ih, List.reverse_cons, List.find?_append]
    cases hf : List.find? (fun p => decide (p.1 = k)) rest.reverse with
    | some q => simp [hf]
    | none =>
      rw [dictLookup_insert]
      by_cases hk : k = p.1
      · subst hk
        simp [hf, List.find?_cons]
      · have hdec : decide (p.1 = k) = false :=
          decide_eq_false (fun h => hk h.symm)
        simp [hf, List.find?_cons, hdec, hk]

theorem dictLookup_dictOf {α : Type} (ps : List (String × α)) (k : String) :
    dictLookup (dictOf ps) k =
      (ps.reverse.find? (fun p => decide (p.1 = k))).map (fun p => p.2) := by
  rw [dictOf, dictLookup_foldl_insert]
  cases h : (ps.reverse.find? (fun p => decide (p.1 = k))).map
      (fun p => p.2) <;> simp [dictLookup]

theorem dictContains_append {α : Type} (d1 d2 : List (String × α))
    (k : String) :
    dictContains (d1 ++ d2) k = (dictContains d1 k || dictContains d2 k) :=
  List.any_append

theorem dictOf_foldl_of_fresh {α : Type} :
    ∀ (ps : List (String × α)) (d : List (String × α)),
      (∀ p ∈ ps, dictContains d p.1 = false) →
      (ps.map (fun p => p.1)).Nodup →
      ps.foldl (fun d p => dictInsert d p.1 p.2) d = d ++ ps := by
  intro ps
  induction ps with
  | nil => intro d _ _; simp
  | cons p rest ih =>
    intro d hfresh hnd
    rw [List.foldl_cons]
    have hp : dictContains d p.1 = false := hfresh p (List.mem_cons_self p rest)
    have hnc : ¬ (d.any fun q => decide (q.1 = p.1)) = true := by
      intro hc
      rw [show (d.any fun q => decide (q.1 = p.1)) = dictContains d p.1
        from rfl, hp] at hc
      cases hc
    have hins : dictInsert d p.1 p.2 = d ++ [p] := by
      rw [dictInsert, if_neg hnc]
    rw [hins, ih (d ++ [p]) ?fresh ?nd, List.append_assoc, List.singleton_append]
    case fresh =>
      intro q hq
      rw [dictContains_append]
      have h1 : dictContains d q.1 = false := hfresh q (List.mem_cons_of_mem p hq)
      have h2 : dictContains [p] q.1 = false := by
        have hne : ¬ p.1 = q.1 := by
          rw [List.map_cons, List.nodup_cons] at hnd
          intro he
          exact hnd.1 (he ▸ List.mem_map_of_mem (fun r => r.1) hq)
        simp [dictContains, hne]
      rw [h1, h2]
      rfl
    case nd =>
      rw [List.map_cons, List.nodup_cons] at hnd
      exact hnd.2

theorem dictOf_of_nodup {α : Type} (ps : List (String × α))
    (hnd : (ps.map (fun p => p.1)).Nodup) : dictOf ps = ps := by
  rw [dictOf, dictOf_foldl_of_fresh ps [] (fun p _ => rfl) hnd]
  rw [List.nil_append]

theorem dictContains_dictOf {α : Type} (ps : List (String × α)) (k : String) :
    dictContains (dictOf ps) k = true ↔ k ∈ ps.map (fun p => p.1) := by
  rw [← dictLookup_isSome, dictLookup_dictOf, Option.isSome_map']
  rw [List.find?_isSome]
  simp only [List.mem_reverse, decide_eq_true_eq, List.mem_map]

theorem keys_dictInsert_nodup {α : Type} (d : List (String × α)) (k : String)
    (v : α) (hnd : (d.map (fun p => p.1)).Nodup) :
    ((dictInsert d k v).map (fun p => p.1)).Nodup := by
  rw [dictInsert]
  split
  · next h =>
    have : (d.map fun p => if p.1 = k then (p.1, v) else p).map (fun p => p.1)
        = d.map (fun p => p.1) := by
      rw [List.map_map]
      refine List.map_congr_left (fun p _ => ?_)
      simp only [Function.comp]
      split <;> rfl
    rwa [this]
  · next h =>
    rw [List.map_append]
    refine List.Nodup.append hnd (by simp) ?_
    intro x hx hk
    simp only [List.map_cons, List.map_nil, List.mem_singleton] at hk
    subst hk
    obtain ⟨p, hp, hpk⟩ := List.mem_map.mp hx
    exact absurd (List.any_eq_true.mpr ⟨p, hp, by simp [hpk]⟩) h

theorem keys_dictOf_nodup {α : Type} (ps : List (String × α)) :
    ((dictOf ps).map (fun p => p.1)).Nodup := by
  rw [dictOf]
  suffices h : ∀ (l : List (String × α)) (d : List (String × α)),
      (d.map (fun p => p.1)).Nodup →
      ((l.foldl (fun d p => dictInsert d p.1 p.2) d).map
        (fun p => p.1)).Nodup by
    exact h ps [] (by simp)
  intro l
  induction l with
  | nil => intro d hd; simpa using hd
  | cons p rest ih =>
    intro d hd
    rw [List.foldl_cons]
    exact ih _ (keys_dictInsert_nodup d p.1 p.2 hd)

theorem dictLookup_of_mem_nodup {α : Type} :
    ∀ (d : List (String × α)), (d.map (fun p => p.1)).Nodup →
      ∀ p ∈ d, dictLookup d p.1 = some p.2 := by
  intro d
  induction d with
  | nil => intro _ p hp; cases hp
  | cons q rest ih =>
    intro hnd p hp
    rw [List.map_cons, List.nodup_cons] at hnd
    rcases List.mem_cons.mp hp with rfl | hp'
    · simp [dictLookup, List.find?_cons]
    · have hne : ¬ q.1 = p.1 := by
        intro he
        exact hnd.1 (he ▸ List.mem_map_of_mem (fun r => r.1) hp')
      have hdec : decide (q.1 = p.1) = false := decide_eq_false hne
      rw [dictLookup, List.find?_cons, hdec]
      exact ih hnd.2 p hp'

/-! ## Helper lemmas: failure propagation and membership -/

theorem parsedNodeLines_none {lines : List String} {l : String}
    (hl : l ∈ lines) (hnb : ¬ pyStrip l = "")
    (hbad : parseNodeLine l = none) : parsedNodeLines lines = none := by
  induction lines with
  | nil => cases hl
  | cons x rest ih =>
    rcases List.mem_cons.mp hl with rfl | hl'
    · simp [parsedNodeLines, hnb, hbad]
    · by_cases hbx : pyStrip x = ""
      · simpa [parsedNodeLines, hbx] using ih hl'
      · cases hpx : parseNodeLine x with
        | none => simp [parsedNodeLines, hbx, hpx]
        | some p => simp [parsedNodeLines, hbx, hpx, ih hl']

theorem parsedEdgeLines_none_badline {nw : List (String × Int)}
    {lines : List String} {l : String} (hl : l ∈ lines)
    (hnb : ¬ pyStrip l = "") (hbad : parseEdgeLine l = none) :
    parsedEdgeLines nw lines = none := by
  induction lines with
  | nil => cases hl
  | cons x rest ih =>
    rcases List.mem_cons.mp hl with rfl | hl'
    · simp [parsedEdgeLines, hnb, hbad]
    · by_cases hbx : pyStrip x = ""
      · simpa [parsedEdgeLines, hbx] using ih hl'
      · cases hpx : parseEdgeLine x with
        | none => simp [parsedEdgeLines, hbx, hpx]
        | some t =>
          obtain ⟨u, v, w⟩ := t
          by_cases hc : dictContains nw u = true ∧ dictContains nw v = true
          · simp [parsedEdgeLines, hbx, hpx, hc, ih hl']
          · simp [parsedEdgeLines, hbx, hpx, hc]

theorem parsedEdgeLines_none_undef {nw : List (String × Int)}
    {lines : List String} {l : String} {u v : String} {w : Int}
    (hl : l ∈ lines) (hnb : ¬ pyStrip l = "")
    (hp : parseEdgeLine l = some (u, v, w))
    (hundef : ¬ (dictContains nw u = true ∧ dictContains nw v = true)) :
    parsedEdgeLines nw lines = none := by
  induction lines with
  | nil => cases hl
  | cons x rest ih =>
    rcases List.mem_cons.mp hl with rfl | hl'
    · simp [parsedEdgeLines, hnb, hp, hundef]
    · by_cases hbx : pyStrip x = ""
      · simpa [parsedEdgeLines, hbx] using ih hl'
      · cases hpx : parseEdgeLine x with
        | none => simp [parsedEdgeLines, hbx, hpx]
        | some t =>
          obtain ⟨u2, v2, w2⟩ := t
          by_cases hc : dictContains nw u2 = true ∧ dictContains nw v2 = true
          · simp [parsedEdgeLines, hbx, hpx, hc, ih hl']
          · simp [parsedEdgeLines, hbx, hpx, hc]

theorem parsedEdgeLines_defined {nw : List (String × Int)} :
    ∀ {lines : List String} {es : List (String × String × Int)},
      parsedEdgeLines nw lines = some es →
      ∀ e ∈ es, dictContains nw e.1 = true ∧ dictContains nw e.2.1 = true := by
  intro lines
  induction lines with
  | nil =>
    intro es h
    rw [parsedEdgeLines] at h
    cases h
    intro e he
    cases he
  | cons x rest ih =>
    intro es h
    by_cases hbx : pyStrip x = ""
    · rw [parsedEdgeLines, if_pos hbx] at h
      exact ih h
    · cases hpx : parseEdgeLine x with
      | none =>
        simp only [parsedEdgeLines, hbx, hpx, if_false, if_neg,
          not_false_iff] at h
        cases h
      | some t =>
        obtain ⟨u, v, w⟩ := t
        simp only [parsedEdgeLines, hbx, hpx, if_false, if_neg,
          not_false_iff] at h
        by_cases hc : dictContains nw u = true ∧ dictContains nw v = true
        · rw [if_pos hc] at h
          cases hrest : parsedEdgeLines nw rest with
          | none => rw [hrest, Option.map_none'] at h; cases h
          | some es' =>
            rw [hrest, Option.map_some'] at h
            cases h
            intro e he
            rcases List.mem_cons.mp he with rfl | he'
            · exact hc
            · exact ih hrest e he'
        · rw [if_neg hc] at h; cases h

/-! ## Helper lemmas: `buildNodeMap` -/

theorem buildNodeMap_eq (nodes : List String) :
    buildNodeMap nodes = dictOf (nodes.enum.map (fun p => (p.2, p.1))) := by
  rw [buildNodeMap, dictOf, List.foldl_map]

theorem buildNodeMap_concat (nodes : List String) (n : String) :
    buildNodeMap (nodes ++ [n]) =
      dictInsert (buildNodeMap nodes) n nodes.length := by
  rw [buildNodeMap, buildNodeMap, List.enum_append, List.foldl_append]
  rfl

theorem dictContains_buildNodeMap (nodes : List String) (name : String) :
    dictContains (buildNodeMap nodes) name = true ↔ name ∈ nodes := by
  rw [buildNodeMap_eq, dictContains_dictOf, List.map_map]
  have hm : ((fun p : String × Nat => p.1) ∘ fun p : Nat × String => (p.2, p.1))
      = Prod.snd := rfl
  rw [hm, List.enum_map_snd]

theorem mem_dictInsert {α : Type} {d : List (String × α)} {k : String}
    {v : α} {q : String × α} (h : q ∈ dictInsert d k v) :
    q ∈ d ∨ (∃ p ∈ d, q = (p.1, v)) ∨ q = (k, v) := by
  rw [dictInsert] at h
  split at h
  · obtain ⟨p, hp, hq⟩ := List.mem_map.mp h
    by_cases hpk : p.1 = k
    · rw [if_pos hpk] at hq
      exact Or.inr (Or.inl ⟨p, hp, hq.symm⟩)
    · rw [if_neg hpk] at hq
      exact Or.inl (hq ▸ hp)
  · rcases List.mem_append.mp h with h' | h'
    · exact Or.inl h'
    · exact Or.inr (Or.inr (List.mem_singleton.mp h'))

theorem foldl_insert_entries {α : Type} (C : String → Prop) (D : α → Prop) :
    ∀ (l : List (String × α)) (m : List (String × α)),
      (∀ q ∈ m, C q.1 ∧ D q.2) → (∀ e ∈ l, C e.1 ∧ D e.2) →
      ∀ q ∈ l.foldl (fun d p => dictInsert d p.1 p.2) m, C q.1 ∧ D q.2 := by
  intro l
  induction l with
  | nil => intro m hm _ q hq; exact hm q hq
  | cons e rest ih =>
    intro m hm hl q hq
    rw [List.foldl_cons] at hq
    refine ih (dictInsert m e.1 e.2) ?_ (fun e' he' => hl e' (List.mem_cons_of_mem e he')) q hq
    intro r hr
    rcases mem_dictInsert hr with hr' | ⟨p, hp, rfl⟩ | rfl
    · exact hm r hr'
    · exact ⟨(hm p hp).1, (hl e (List.mem_cons_self e rest)).2⟩
    · exact hl e (List.mem_cons_self e rest)

theorem mem_buildNodeMap {nodes : List String} {q : String × Nat}
    (h : q ∈ buildNodeMap nodes) : q.1 ∈ nodes ∧ q.2 < nodes.length := by
  rw [buildNodeMap_eq, dictOf] at h
  refine foldl_insert_entries (fun k => k ∈ nodes) (fun i => i < nodes.length)
    (nodes.enum.map (fun p => (p.2, p.1))) [] (fun q hq => absurd hq (List.not_mem_nil q))
    ?_ q h
  intro e he
  obtain ⟨p, hp, rfl⟩ := List.mem_map.mp he
  have hget := List.mem_enum_iff_getElem?.mp hp
  obtain ⟨hlt, hval⟩ := List.getElem?_eq_some.mp hget
  constructor
  · exact hval ▸ List.getElem_mem hlt
  · exact hlt

theorem buildNodeMap_keys_nodup (nodes : List String) :
    ((buildNodeMap nodes).map (fun p => p.1)).Nodup := by
  rw [buildNodeMap_eq]
  exact keys_dictOf_nodup _

theorem buildNodeMap_nil : buildNodeMap [] = [] := rfl

theorem lookup_buildNodeMap_last :
    ∀ {nodes : List String} {name : String} {k : Nat},
      dictLookup (buildNodeMap nodes) name = some k →
      nodes[k]? = some name ∧ ∀ m, k < m → nodes[m]? ≠ some name := by
  intro nodes
  induction nodes using List.reverseRecOn with
  | nil => intro name k h; rw [buildNodeMap_nil] at h; cases h
  | append_singleton l n ih =>
    intro name k h
    rw [buildNodeMap_concat, dictLookup_insert] at h
    by_cases hn : name = n
    · rw [if_pos hn] at h
      cases h
      constructor
      · rw [List.getElem?_concat_length, hn]
      · intro m hm
        have hlen : (l ++ [n]).length ≤ m := by
          rw [List.length_append, List.length_singleton]
          omega
        rw [List.getElem?_eq_none hlen]
        exact fun hc => Option.noConfusion hc
    · rw [if_neg hn] at h
      obtain ⟨hk, hlast⟩ := ih h
      have hklt : k < l.length := by
        rcases Nat.lt_or_ge k l.length with h' | h'
        · exact h'
        · rw [List.getElem?_eq_none h'] at hk; cases hk
      constructor
      · rw [List.getElem?_append_left hklt]
        exact hk
      · intro m hm
        rcases Nat.lt_or_ge m l.length with hmlt | hmge
        · rw [List.getElem?_append_left hmlt]
          exact hlast m hm
        · rcases Nat.eq_or_lt_of_le hmge with rfl | hmgt
          · rw [List.getElem?_concat_length]
            intro hc
            exact hn (Option.some.inj hc).symm
          · have hlen : (l ++ [n]).length ≤ m := by
              rw [List.length_append, List.length_singleton]
              omega
            rw [List.getElem?_eq_none hlen]
            exact fun hc => Option.noConfusion hc

/-! ## Helper lemmas: `setWeights` and `mapEdges` -/

theorem set_append_length {α : Type} :
    ∀ (pre : List α) (x y : α) (rest : List α),
      (pre ++ x :: rest).set pre.length y = pre ++ y :: rest := by
  intro pre
  induction pre with
  | nil => intro x y rest; rfl
  | cons a pre ih => intro x y rest; simp [List.set, ih]

theorem setWeights_some {nw : List (String × Int)} :
    ∀ (l : List (String × Nat)) (wl : List Int),
      (∀ p ∈ l, (dictLookup nw p.1).isSome = true) →
      ∃ ws, setWeights nw l wl = some ws ∧ ws.length = wl.length ∧
        ∀ i, (∀ p ∈ l, p.2 ≠ i) → ws[i]? = wl[i]? := by
  intro l
  induction l with
  | nil => intro wl _; exact ⟨wl, rfl, rfl, fun i _ => rfl⟩
  | cons p rest ih =>
    intro wl hs
    obtain ⟨w, hw⟩ := Option.isSome_iff_exists.mp
      (hs p (List.mem_cons_self p rest))
    obtain ⟨ws, hws, hlen, huntouched⟩ :=
      ih (wl.set p.2 w) (fun q hq => hs q (List.mem_cons_of_mem p hq))
    refine ⟨ws, ?_, by rw [hlen, List.length_set], ?_⟩
    · rw [setWeights, hw]
      exact hws
    · intro i hi
      rw [huntouched i (fun q hq => hi q (List.mem_cons_of_mem p hq)),
        List.getElem?_set_ne (hi p (List.mem_cons_self p rest))]

theorem setWeights_enum_swap {nw : List (String × Int)} :
    ∀ (l : List String) (pre suf : List Int),
      suf.length = l.length →
      (∀ n ∈ l, (dictLookup nw n).isSome = true) →
      setWeights nw ((List.enumFrom pre.length l).map (fun p => (p.2, p.1)))
          (pre ++ suf)
        = some (pre ++ l.map (fun n => (dictLookup nw n).getD 0)) := by
  intro l
  induction l with
  | nil =>
    intro pre suf hlen _
    have hsuf : suf = [] := List.length_eq_zero.mp (by simpa using hlen)
    subst hsuf
    simp [setWeights]
  | cons n rest ih =>
    intro pre suf hlen hs
    cases suf with
    | nil => simp at hlen
    | cons s0 suf2 =>
      obtain ⟨w, hw⟩ := Option.isSome_iff_exists.mp
        (hs n (List.mem_cons_self n rest))
      rw [List.enumFrom_cons, List.map_cons]
      simp only [setWeights, hw]
      rw [set_append_length]
      have hstep : pre ++ w :: suf2 = (pre ++ [w]) ++ suf2 := by simp
      rw [hstep]
      have hidx : pre.length + 1 = (pre ++ [w]).length := by simp
      rw [hidx]
      rw [ih (pre ++ [w]) suf2 (by simpa using hlen)
        (fun q hq => hs q (List.mem_cons_of_mem n hq))]
      simp [hw, List.append_assoc]

theorem buildNodeMap_of_nodup {nodes : List String} (h : nodes.Nodup) :
    buildNodeMap nodes = nodes.enum.map (fun p => (p.2, p.1)) := by
  rw [buildNodeMap_eq]
  apply dictOf_of_nodup
  rw [List.map_map]
  have hm : ((fun p : String × Nat => p.1) ∘ fun p : Nat × String => (p.2, p.1))
      = Prod.snd := rfl
  rw [hm, List.enum_map_snd]
  exact h

theorem lookup_buildNodeMap_isSome {nodes : List String} {name : String}
    (h : name ∈ nodes) :
    (dictLookup (buildNodeMap nodes) name).isSome = true := by
  rw [dictLookup_isSome]
  exact (dictContains_buildNodeMap nodes name).mpr h

theorem lookup_buildNodeMap_nodup {nodes : List String} (hnd : nodes.Nodup)
    {i : Nat} (hi : i < nodes.length) :
    dictLookup (buildNodeMap nodes) (nodes.get ⟨i, hi⟩) = some i := by
  obtain ⟨k, hk⟩ := Option.isSome_iff_exists.mp
    (lookup_buildNodeMap_isSome (nodes.get_mem i hi))
  obtain ⟨hkval, _⟩ := lookup_buildNodeMap_last hk
  have hival : nodes[i]? = some (nodes.get ⟨i, hi⟩) := by
    rw [List.getElem?_eq_some]
    exact ⟨hi, rfl⟩
  have hik : i = k := List.getElem?_inj hi hnd (hival.trans hkval.symm)
  rw [hk, hik]

theorem lookup_buildNodeMap_indexOf {nodes : List String} (hnd : nodes.Nodup)
    {u : String} (hu : u ∈ nodes) :
    dictLookup (buildNodeMap nodes) u = some (List.indexOf u nodes) := by
  have hlt : List.indexOf u nodes < nodes.length :=
    List.indexOf_lt_length.mpr hu
  have := lookup_buildNodeMap_nodup hnd hlt
  rwa [List.indexOf_get hlt] at this

theorem mapEdges_some {nm : List (String × Nat)} :
    ∀ (es : List (String × String × Int)),
      (∀ e ∈ es, (dictLookup nm e.1).isSome = true ∧
        (dictLookup nm e.2.1).isSome = true) →
      mapEdges nm es = some (es.map (fun e =>
        ((dictLookup nm e.1).getD 0, (dictLookup nm e.2.1).getD 0, e.2.2))) := by
  intro es
  induction es with
  | nil => intro _; rfl
  | cons e rest ih =>
    intro hs
    obtain ⟨hu, hv⟩ := hs e (List.mem_cons_self e rest)
    obtain ⟨ui, hui⟩ := Option.isSome_iff_exists.mp hu
    obtain ⟨vi, hvi⟩ := Option.isSome_iff_exists.mp hv
    rw [mapEdges, hui, hvi, ih (fun q hq => hs q (List.mem_cons_of_mem e hq)),
      List.map_cons]
    simp [hui, hvi]

theorem mapEdges_mem {nm : List (String × Nat)} :
    ∀ {es : List (String × String × Int)} {we : List (Nat × Nat × Int)},
      mapEdges nm es = some we →
      ∀ t ∈ we, ∃ e ∈ es, dictLookup nm e.1 = some t.1 ∧
        dictLookup nm e.2.1 = some t.2.1 ∧ t.2.2 = e.2.2 := by
  intro es
  induction es with
  | nil =>
    intro we h
    rw [mapEdges] at h
    cases h
    intro t ht
    cases ht
  | cons e rest ih =>
    intro we h
    rw [mapEdges] at h
    cases hui : dictLookup nm e.1 with
    | none => rw [hui] at h; cases h
    | some ui =>
      cases hvi : dictLookup nm e.2.1 with
      | none => rw [hui, hvi] at h; cases h
      | some vi =>
        cases hrest : mapEdges nm rest with
        | none => rw [hui, hvi, hrest] at h; cases h
        | some we' =>
          rw [hui, hvi, hrest] at h
          cases h
          intro t ht
          rcases List.mem_cons.mp ht with rfl | ht'
          · exact ⟨e, List.mem_cons_self e rest, hui, hvi, rfl⟩
          · obtain ⟨e', he', h1, h2, h3⟩ := ih hrest t ht'
            exact ⟨e', List.mem_cons_of_mem e he', h1, h2, h3⟩

/-! ## Helper lemmas: `parseNodes` inversion -/

theorem parseNodes_inv {s : String} {nodes : List String}
    {nw : List (String × Int)} (h : parseNodes s = some (nodes, nw)) :
    ∃ ps, parsedNodeLines (pySplit s '\n') = some ps ∧
      nodes = ps.map (fun p => p.1) ∧ nw = dictOf ps := by
  rw [parseNodes_eq] at h
  cases hp : parsedNodeLines (pySplit s '\n') with
  | none => rw [hp] at h; cases h
  | some ps =>
    rw [hp, Option.map_some'] at h
    obtain ⟨h1, h2⟩ := Prod.mk.injEq .. ▸ Option.some.inj h
    exact ⟨ps, rfl, h1.symm, h2.symm⟩

theorem parseNodes_keys {s : String} {nodes : List String}
    {nw : List (String × Int)} (h : parseNodes s = some (nodes, nw)) :
    ∀ k, dictContains nw k = true ↔ k ∈ nodes := by
  obtain ⟨ps, _, hnodes, hnw⟩ := parseNodes_inv h
  intro k
  rw [hnw, hnodes]
  exact dictContains_dictOf ps k

theorem parseNodes_nw_keys {s : String} {nodes : List String}
    {nw : List (String × Int)} (h : parseNodes s = some (nodes, nw))
    (hnd : nodes.Nodup) : nw.map (fun p => p.1) = nodes := by
  obtain ⟨ps, _, hnodes, hnw⟩ := parseNodes_inv h
  rw [hnw, hnodes, dictOf_of_nodup ps (hnodes ▸ hnd)]

/-! ## Helper lemmas: assembling `generate_input_file` -/

theorem writeContent_eq {nodes : List String} {nw : List (String × Int)}
    {es : List (String × String × Int)} {ws : List Int}
    {we : List (Nat × Nat × Int)}
    (hws : buildWeightList nodes.length (buildNodeMap nodes) nw = some ws)
    (hwe : mapEdges (buildNodeMap nodes) es = some we) :
    writeContent nodes nw es = some
      (natToString nodes.length ++ " " ++ natToString es.length ++ "\n"
        ++ pyJoin " " (ws.map intToString) ++ "\n"
        ++ String.join (we.map (fun t =>
            natToString t.1 ++ " " ++ natToString t.2.1 ++ " "
            ++ intToString t.2.2 ++ "\n"))) := by
  rw [writeContent]
  simp only [hws, hwe]

theorem generate_input_file_eq {nstr estr content : String}
    {nodes : List String} {nw : List (String × Int)}
    {es : List (String × String × Int)}
    (hN : parseNodes nstr = some (nodes, nw))
    (hE : parseEdges nw estr = some es)
    (hW : writeContent nodes nw es = some content) :
    generate_input_file nstr estr = some (content, nodes, nw) := by
  rw [generate_input_file]
  simp only [hN, hE, hW]

theorem generate_success {nstr estr : String} {nodes : List String}
    {nw : List (String × Int)} {es : List (String × String × Int)}
    (hN : parseNodes nstr = some (nodes, nw))
    (hE : parseEdges nw estr = some es) :
    ∃ ws we, buildWeightList nodes.length (buildNodeMap nodes) nw = some ws ∧
      mapEdges (buildNodeMap nodes) es = some we ∧
      generate_input_file nstr estr = some
        (natToString nodes.length ++ " " ++ natToString es.length ++ "\n"
          ++ pyJoin " " (ws.map intToString) ++ "\n"
          ++ String.join (we.map (fun t =>
              natToString t.1 ++ " " ++ natToString t.2.1 ++ " "
              ++ intToString t.2.2 ++ "\n")),
          nodes, nw) := by
  have hkeys := parseNodes_keys hN
  have hisSome : ∀ p ∈ buildNodeMap nodes, (dictLookup nw p.1).isSome = true := by
    intro p hp
    rw [dictLookup_isSome]
    exact (hkeys p.1).mpr (mem_buildNodeMap hp).1
  obtain ⟨ws, hws, _, _⟩ := setWeights_some (buildNodeMap nodes)
    (List.replicate nodes.length 0) hisSome
  have hdef : ∀ e ∈ es, dictContains nw e.1 = true ∧ dictContains nw e.2.1 = true := by
    rw [parseEdges_eq] at hE
    exact parsedEdgeLines_defined hE
  have hwe := mapEdges_some es (fun e he =>
    ⟨lookup_buildNodeMap_isSome ((hkeys e.1).mp (hdef e he).1),
     lookup_buildNodeMap_isSome ((hkeys e.2.1).mp (hdef e he).2)⟩)
  exact ⟨ws, _, hws, hwe, generate_input_file_eq hN hE (writeContent_eq hws hwe)⟩

theorem buildWeightList_nodup {nodes : List String} {nw : List (String × Int)}
    (hnd : nodes.Nodup)
    (hsome : ∀ n ∈ nodes, (dictLookup nw n).isSome = true) :
    buildWeightList nodes.length (buildNodeMap nodes) nw =
      some (nodes.map (fun n => (dictLookup nw n).getD 0)) := by
  rw [buildWeightList, buildNodeMap_of_nodup hnd]
  have h := @setWeights_enum_swap nw nodes []
    (List.replicate nodes.length 0) (by simp) hsome
  simpa [List.enum] using h

theorem weights_eq_nw {s : String} {nodes : List String}
    {nw : List (String × Int)} (h : parseNodes s = some (nodes, nw))
    (hnd : nodes.Nodup) :
    nodes.map (fun n => (dictLookup nw n).getD 0) = nw.map (fun p => p.2) := by
  have hkeys := parseNodes_nw_keys h hnd
  have hknd : (nw.map (fun p => p.1)).Nodup := by rw [hkeys]; exact hnd
  conv_lhs => rw [← hkeys]
  rw [List.map_map]
  refine List.map_congr_left ?_
  intro p hp
  simp only [Function.comp]
  rw [dictLookup_of_mem_nodup nw hknd p hp]
  rfl

/-- **C1.**  For every input whose node-weight text parses into a node list
with pairwise-distinct IDs and whose edge text parses into an edge list over
those IDs, `generate_input_file` succeeds and writes exactly: a first line
`V E` with `V` the number of parsed nodes and `E` the number of parsed
edges; a second line of the `V` space-separated vertex weights ordered by
the 0-based index assigned by order of appearance in the node list (the
`node_weights` dict lists the `(id, weight)` pairs in that order — its key
column equals `nodes`); then `E` lines `u_idx v_idx w_e`, one per edge in
input order, with `u_idx`, `v_idx` the indices of the edge's endpoint IDs
in the node list. -/
theorem C1_generate_writes_structured_input
    (nstr estr : String) (nodes : List String) (nw : List (String × Int))
    (es : List (String × String × Int))
    (hN : parseNodes nstr = some (nodes, nw))
    (hnd : nodes.Nodup)
    (hE : parseEdges nw estr = some es) :
    nw.map (fun p => p.1) = nodes ∧
    generate_input_file nstr estr = some
      (natToString nodes.length ++ " " ++ natToString es.length ++ "\n"
        ++ pyJoin " " ((nw.map (fun p => p.2)).map intToString) ++ "\n"
        ++ String.join (es.map (fun e =>
            natToString (List.indexOf e.1 nodes) ++ " "
            ++ natToString (List.indexOf e.2.1 nodes) ++ " "
            ++ intToString e.2.2 ++ "\n")),
        nodes, nw) := by
  have hkeys := parseNodes_keys hN
  refine ⟨parseNodes_nw_keys hN hnd, ?_⟩
  have hsome : ∀ n ∈ nodes, (dictLookup nw n).isSome = true := by
    intro n hn
    rw [dictLookup_isSome]
    exact (hkeys n).mpr hn
  have hws := buildWeightList_nodup hnd hsome
  rw [weights_eq_nw hN hnd] at hws
  have hdef : ∀ e ∈ es, dictContains nw e.1 = true ∧
      dictContains nw e.2.1 = true := by
    rw [parseEdges_eq] at hE
    exact parsedEdgeLines_defined hE
  have hmem : ∀ e ∈ es, e.1 ∈ nodes ∧ e.2.1 ∈ nodes := fun e he =>
    ⟨(hkeys e.1).mp (hdef e he).1, (hkeys e.2.1).mp (hdef e he).2⟩
  have hwe := mapEdges_some es (fun e he =>
    ⟨lookup_buildNodeMap_isSome (hmem e he).1,
     lookup_buildNodeMap_isSome (hmem e he).2⟩)
  have hmap : es.map (fun e =>
      ((dictLookup (buildNodeMap nodes) e.1).getD 0,
       (dictLookup (buildNodeMap nodes) e.2.1).getD 0, e.2.2)) =
      es.map (fun e =>
        (List.indexOf e.1 nodes, List.indexOf e.2.1 nodes, e.2.2)) := by
    refine List.map_congr_left ?_
    intro e he
    rw [lookup_buildNodeMap_indexOf hnd (hmem e he).1,
      lookup_buildNodeMap_indexOf hnd (hmem e he).2]
    rfl
  rw [hmap] at hwe
  have hgen := generate_input_file_eq hN hE (writeContent_eq hws hwe)
  rw [hgen, List.map_map, List.map_map]
  rfl

/-- Witness for C1 on a concrete two-node, one-edge input. -/
theorem C1_witness :
    generate_input_file "A:10\nB:5" "A,B,2" =
      some ("2 1\n10 5\n0 1 2\n", ["A", "B"], [("A", 10), ("B", 5)]) := by
  have h := C1_generate_writes_structured_input "A:10\nB:5" "A,B,2"
    ["A", "B"] [("A", 10), ("B", 5)] [("A", "B", 2)]
    (by decide) (by decide) (by decide)
  rw [h.2]
  rfl

/-- **C8.**  Determinism of the glue layer: two runs of
`generate_input_file` on identical node-weight and edge strings return
identical values (and hence byte-identical file content), and two runs of
`parse_c_output` on identical solver outputs return identical totals and
edge records.  The embedding is deterministic by construction, faithfully so:
the Python functions use no randomness, no environment reads, and only
insertion-ordered dict iteration. -/
theorem C8_deterministic_glue :
    (∀ n1 e1 n2 e2 : String, n1 = n2 → e1 = e2 →
      generate_input_file n1 e1 = generate_input_file n2 e2) ∧
    (∀ o1 o2 : String, ∀ ns1 ns2 : List String, o1 = o2 → ns1 = ns2 →
      parse_c_output o1 ns1 = parse_c_output o2 ns2) :=
  ⟨fun _ _ _ _ h1 h2 => by rw [h1, h2],
   fun _ _ _ _ h1 h2 => by rw [h1, h2]⟩

/-- Witness for C8 at concrete inputs. -/
theorem C8_witness :
    generate_input_file "A:1" "" = generate_input_file "A:1" "" ∧
    parse_c_output "TOTAL_COST:3" ["A"] = parse_c_output "TOTAL_COST:3" ["A"] :=
  ⟨C8_deterministic_glue.1 "A:1" "" "A:1" "" rfl rfl,
   C8_deterministic_glue.2 "TOTAL_COST:3" "TOTAL_COST:3" ["A"] ["A"] rfl rfl⟩

/-! ## Helper lemmas: inversion of `generate_input_file` -/

theorem generate_none_of_parseNodes {nstr estr : String}
    (h : parseNodes nstr = none) : generate_input_file nstr estr = none := by
  rw [generate_input_file, h]

theorem generate_none_of_parseEdges {nstr estr : String}
    {nodes : List String} {nw : List (String × Int)}
    (hN : parseNodes nstr = some (nodes, nw))
    (hE : parseEdges nw estr = none) :
    generate_input_file nstr estr = none := by
  rw [generate_input_file]
  simp only [hN, hE]

theorem generate_inv {nstr estr content : String}
    {nodes : List String} {nw : List (String × Int)}
    (h : generate_input_file nstr estr = some (content, nodes, nw)) :
    parseNodes nstr = some (nodes, nw) ∧
    ∃ es, parseEdges nw estr = some es ∧
      writeContent nodes nw es = some content := by
  rw [generate_input_file] at h
  cases hN : parseNodes nstr with
  | none => rw [hN] at h; cases h
  | some q =>
    obtain ⟨nodes0, nw0⟩ := q
    rw [hN] at h
    simp only at h
    cases hE : parseEdges nw0 estr with
    | none => rw [hE] at h; cases h
    | some es =>
      rw [hE] at h
      simp only at h
      cases hW : writeContent nodes0 nw0 es with
      | none => rw [hW] at h; cases h
      | some c =>
        rw [hW] at h
        simp only [Option.some.injEq, Prod.mk.injEq] at h
        obtain ⟨hc, hn, hw⟩ := h
        subst hn
        subst hw
        subst hc
        exact ⟨rfl, es, hE, hW⟩

theorem writeContent_inv {nodes : List String} {nw : List (String × Int)}
    {es : List (String × String × Int)} {content : String}
    (h : writeContent nodes nw es = some content) :
    ∃ ws we, buildWeightList nodes.length (buildNodeMap nodes) nw = some ws ∧
      mapEdges (buildNodeMap nodes) es = some we := by
  rw [writeContent] at h
  cases hws : buildWeightList nodes.length (buildNodeMap nodes) nw with
  | none => rw [hws] at h; cases h
  | some ws =>
    cases hwe : mapEdges (buildNodeMap nodes) es with
    | none => rw [hws, hwe] at h; cases h
    | some we => exact ⟨ws, we, rfl, rfl⟩

/-- **C5.**  Whenever `generate_input_file` succeeds, every edge record it
writes references vertex indices `u_idx`, `v_idx` with `0 ≤ idx < V`, `V`
being the vertex count on the first line (the indices are `Nat`s, so the
lower bound is inherent); and an edge line whose endpoint ID is not among
the defined node weights forces the failure triple instead, before any file
content is produced. -/
theorem C5_indices_in_range_and_rejection (nstr estr : String) :
    (∀ content nodes nw,
      generate_input_file nstr estr = some (content, nodes, nw) →
      ∃ es we, parseEdges nw estr = some es ∧
        mapEdges (buildNodeMap nodes) es = some we ∧
        ∀ t ∈ we, t.1 < nodes.length ∧ t.2.1 < nodes.length) ∧
    (∀ nodes nw line u v w,
      parseNodes nstr = some (nodes, nw) →
      line ∈ pySplit estr '\n' → ¬ pyStrip line = "" →
      parseEdgeLine line = some (u, v, w) →
      (dictContains nw u = false ∨ dictContains nw v = false) →
      generate_input_file nstr estr = none) := by
  constructor
  · intro content nodes nw h
    obtain ⟨hN, es, hE, hW⟩ := generate_inv h
    obtain ⟨ws, we, hws, hwe⟩ := writeContent_inv hW
    refine ⟨es, we, hE, hwe, ?_⟩
    intro t ht
    obtain ⟨e, _, hu, hv, _⟩ := mapEdges_mem hwe t ht
    exact ⟨(mem_buildNodeMap (dictLookup_mem hu)).2,
      (mem_buildNodeMap (dictLookup_mem hv)).2⟩
  · intro nodes nw line u v w hN hline hnb hp hundef
    have hcond : ¬ (dictContains nw u = true ∧ dictContains nw v = true) := by
      rcases hundef with h | h
      · intro hc; rw [hc.1] at h; cases h
      · intro hc; rw [hc.2] at h; cases h
    have hE : parseEdges nw estr = none := by
      rw [parseEdges_eq]
      exact parsedEdgeLines_none_undef hline hnb hp hcond
    exact generate_none_of_parseEdges hN hE

/-- Witness for C5: part 1 on a successful run, part 2 on an edge naming an
undefined node. -/
theorem C5_witness :
    (∃ es we, parseEdges [("A", 10), ("B", 5)] "A,B,2" = some es ∧
      mapEdges (buildNodeMap ["A", "B"]) es = some we ∧
      ∀ t ∈ we, t.1 < (["A", "B"] : List String).length ∧
        t.2.1 < (["A", "B"] : List String).length) ∧
    generate_input_file "A:10\nB:5" "A,C,2" = none := by
  constructor
  · exact (C5_indices_in_range_and_rejection "A:10\nB:5" "A,B,2").1
      "2 1\n10 5\n0 1 2\n" ["A", "B"] [("A", 10), ("B", 5)] (by decide)
  · exact (C5_indices_in_range_and_rejection "A:10\nB:5" "A,C,2").2
      ["A", "B"] [("A", 10), ("B", 5)] "A,C,2" "A" "C" 2
      (by decide) (by decide) (by decide) (by decide) (by decide)

/-- **C6.**  If some non-blank node line is not of the `ID:Weight` shape or
has a non-integer weight, or some non-blank edge line is not of the
`u,v,w_e` shape or has a non-integer weight, or some edge names a node that
is not defined in the node weights, then `generate_input_file` returns the
failure triple (`(False, [], {})`, modelled as `none`) and the button
handler never invokes the C solver. -/
theorem C6_malformed_input_fails (nstr estr : String) (p : ProcOutcome)
    (hbad :
      (∃ line ∈ pySplit nstr '\n', ¬ pyStrip line = "" ∧
        parseNodeLine line = none) ∨
      (∃ line ∈ pySplit estr '\n', ¬ pyStrip line = "" ∧
        parseEdgeLine line = none) ∨
      (∃ nodes nw, parseNodes nstr = some (nodes, nw) ∧
        ∃ line ∈ pySplit estr '\n', ¬ pyStrip line = "" ∧
          ∃ u v w, parseEdgeLine line = some (u, v, w) ∧
            (dictContains nw u = false ∨ dictContains nw v = false))) :
    generate_input_file nstr estr = none ∧
    button_handler nstr estr p = ⟨.inputError, false, false⟩ := by
  have hgen : generate_input_file nstr estr = none := by
    rcases hbad with ⟨line, hline, hnb, hbadl⟩ | ⟨line, hline, hnb, hbadl⟩ |
      ⟨nodes, nw, hN, line, hline, hnb, u, v, w, hp, hundef⟩
    · refine generate_none_of_parseNodes ?_
      rw [parseNodes_eq, parsedNodeLines_none hline hnb hbadl]
      rfl
    · cases hN : parseNodes nstr with
      | none => exact generate_none_of_parseNodes hN
      | some q =>
        refine generate_none_of_parseEdges hN ?_
        rw [parseEdges_eq]
        exact parsedEdgeLines_none_badline hline hnb hbadl
    · refine generate_none_of_parseEdges hN ?_
      rw [parseEdges_eq]
      refine parsedEdgeLines_none_undef hline hnb hp ?_
      rcases hundef with h | h
      · intro hc; rw [hc.1] at h; cases h
      · intro hc; rw [hc.2] at h; cases h
  refine ⟨hgen, ?_⟩
  rw [button_handler, hgen]

/-- Witness for C6: a node line with a non-integer weight. -/
theorem C6_witness :
    generate_input_file "A:x\nB:5" "A,B,2" = none ∧
    button_handler "A:x\nB:5" "A,B,2" ProcOutcome.notFound =
      ⟨.inputError, false, false⟩ :=
  C6_malformed_input_fails "A:x\nB:5" "A,B,2" ProcOutcome.notFound
    (Or.inl (by decide))

/-- **C7.**  Two edge lines with the same unordered endpoint pair and
different weights are both written as independent edge records, at their
respective positions, and both are counted in the written `E`; the producer
performs no deduplication of parallel edges. -/
theorem C7_parallel_edges_kept (nstr estr : String) (nodes : List String)
    (nw : List (String × Int)) (es : List (String × String × Int))
    (i j : Nat) (e1 e2 : String × String × Int)
    (hN : parseNodes nstr = some (nodes, nw))
    (hE : parseEdges nw estr = some es)
    (_hij : i < j)
    (h1 : es[i]? = some e1) (h2 : es[j]? = some e2)
    (_hpair : (e1.1 = e2.1 ∧ e1.2.1 = e2.2.1) ∨
      (e1.1 = e2.2.1 ∧ e1.2.1 = e2.1))
    (hw : e1.2.2 ≠ e2.2.2) :
    ∃ ws we,
      buildWeightList nodes.length (buildNodeMap nodes) nw = some ws ∧
      mapEdges (buildNodeMap nodes) es = some we ∧
      we.length = es.length ∧
      generate_input_file nstr estr = some
        (natToString nodes.length ++ " " ++ natToString es.length ++ "\n"
          ++ pyJoin " " (ws.map intToString) ++ "\n"
          ++ String.join (we.map (fun t =>
              natToString t.1 ++ " " ++ natToString t.2.1 ++ " "
              ++ intToString t.2.2 ++ "\n")), nodes, nw) ∧
      ∃ t1 t2, we[i]? = some t1 ∧ we[j]? = some t2 ∧
        t1.2.2 = e1.2.2 ∧ t2.2.2 = e2.2.2 ∧ t1.2.2 ≠ t2.2.2 := by
  have hkeys := parseNodes_keys hN
  have hisSome : ∀ p ∈ buildNodeMap nodes,
      (dictLookup nw p.1).isSome = true := by
    intro p hp
    rw [dictLookup_isSome]
    exact (hkeys p.1).mpr (mem_buildNodeMap hp).1
  obtain ⟨ws, hws, _, _⟩ := setWeights_some (buildNodeMap nodes)
    (List.replicate nodes.length 0) hisSome
  have hdef : ∀ e ∈ es, dictContains nw e.1 = true ∧
      dictContains nw e.2.1 = true := by
    rw [parseEdges_eq] at hE
    exact parsedEdgeLines_defined hE
  have hwe := mapEdges_some es (fun e he =>
    ⟨lookup_buildNodeMap_isSome ((hkeys e.1).mp (hdef e he).1),
     lookup_buildNodeMap_isSome ((hkeys e.2.1).mp (hdef e he).2)⟩)
  refine ⟨ws, _, hws, hwe, List.length_map es _, ?_, ?_⟩
  · exact generate_input_file_eq hN hE (writeContent_eq hws hwe)
  · refine ⟨((dictLookup (buildNodeMap nodes) e1.1).getD 0,
      (dictLookup (buildNodeMap nodes) e1.2.1).getD 0, e1.2.2),
      ((dictLookup (buildNodeMap nodes) e2.1).getD 0,
      (dictLookup (buildNodeMap nodes) e2.2.1).getD 0, e2.2.2),
      ?_, ?_, rfl, rfl, ?_⟩
    · rw [List.getElem?_map, h1, Option.map_some']
    · rw [List.getElem?_map, h2, Option.map_some']
    · exact hw

/-- Witness for C7: the edge `A,B` appears twice, with weights `2` and `7`. -/
theorem C7_witness :
    ∃ ws we,
      buildWeightList (["A", "B"] : List String).length
        (buildNodeMap ["A", "B"]) [("A", 10), ("B", 5)] = some ws ∧
      mapEdges (buildNodeMap ["A", "B"])
        [("A", "B", 2), ("A", "B", 7)] = some we ∧
      we.length = ([("A", "B", (2:Int)), ("A", "B", 7)] :
        List (String × String × Int)).length ∧
      generate_input_file "A:10\nB:5" "A,B,2\nA,B,7" = some
        (natToString (["A", "B"] : List String).length ++ " "
          ++ natToString ([("A", "B", (2:Int)), ("A", "B", 7)] :
            List (String × String × Int)).length ++ "\n"
          ++ pyJoin " " (ws.map intToString) ++ "\n"
          ++ String.join (we.map (fun t =>
              natToString t.1 ++ " " ++ natToString t.2.1 ++ " "
              ++ intToString t.2.2 ++ "\n")), ["A", "B"],
          [("A", 10), ("B", 5)]) ∧
      ∃ t1 t2, we[0]? = some t1 ∧ we[1]? = some t2 ∧
        t1.2.2 = (2:Int) ∧ t2.2.2 = (7:Int) ∧ t1.2.2 ≠ t2.2.2 :=
  C7_parallel_edges_kept "A:10\nB:5" "A,B,2\nA,B,7" ["A", "B"]
    [("A", 10), ("B", 5)] [("A", "B", 2), ("A", "B", 7)] 0 1
    ("A", "B", 2) ("A", "B", 7) (by decide) (by decide) (by decide)
    (by decide) (by decide) (Or.inl (by decide)) (by decide)

/-- **C9.**  If the node-weight text defines the same ID on two lines (and
everything parses), `generate_input_file` still succeeds; the written vertex
count counts each occurrence separately (`V = nodes.length` on the first
line of the written content); the index map keeps only the last occurrence's
index for the duplicated ID; the earlier occurrence's index keeps weight `0`
in the written weight list; no written edge references that index; and with
`V > 1` the written graph is disconnected. -/
theorem C9_duplicate_ids_give_dead_index (nstr estr : String)
    (nodes : List String) (nw : List (String × Int))
    (es : List (String × String × Int)) (i j : Nat) (name : String)
    (hN : parseNodes nstr = some (nodes, nw))
    (hij : i < j)
    (hi : nodes[i]? = some name) (hj : nodes[j]? = some name)
    (hE : parseEdges nw estr = some es) :
    ∃ ws we,
      buildWeightList nodes.length (buildNodeMap nodes) nw = some ws ∧
      mapEdges (buildNodeMap nodes) es = some we ∧
      generate_input_file nstr estr = some
        (natToString nodes.length ++ " " ++ natToString es.length ++ "\n"
          ++ pyJoin " " (ws.map intToString) ++ "\n"
          ++ String.join (we.map (fun t =>
              natToString t.1 ++ " " ++ natToString t.2.1 ++ " "
              ++ intToString t.2.2 ++ "\n")), nodes, nw) ∧
      (∃ k, dictLookup (buildNodeMap nodes) name = some k ∧ i < k ∧
        nodes[k]? = some name ∧ ∀ m, k < m → nodes[m]? ≠ some name) ∧
      ws[i]? = some 0 ∧
      (∀ t ∈ we, t.1 ≠ i ∧ t.2.1 ≠ i) ∧
      (1 < nodes.length → ¬ connectedGraph nodes.length we) := by
  have hjlt : j < nodes.length := (List.getElem?_eq_some.mp hj).1
  have hilt : i < nodes.length := Nat.lt_trans hij hjlt
  -- no name is mapped to index i by the node map
  have hnoti : ∀ (name2 : String) (k : Nat),
      dictLookup (buildNodeMap nodes) name2 = some k → k ≠ i := by
    intro name2 k hk hki
    subst hki
    obtain ⟨hkval, hlast⟩ := lookup_buildNodeMap_last hk
    have hname2 : name2 = name := by
      rw [hi] at hkval
      exact (Option.some.inj hkval).symm
    exact hlast j hij (hname2 ▸ hj)
  have hkeys := parseNodes_keys hN
  have hisSome : ∀ p ∈ buildNodeMap nodes,
      (dictLookup nw p.1).isSome = true := by
    intro p hp
    rw [dictLookup_isSome]
    exact (hkeys p.1).mpr (mem_buildNodeMap hp).1
  obtain ⟨ws, hws, hlen, huntouched⟩ := setWeights_some (buildNodeMap nodes)
    (List.replicate nodes.length 0) hisSome
  have hdef : ∀ e ∈ es, dictContains nw e.1 = true ∧
      dictContains nw e.2.1 = true := by
    rw [parseEdges_eq] at hE
    exact parsedEdgeLines_defined hE
  have hwe := mapEdges_some es (fun e he =>
    ⟨lookup_buildNodeMap_isSome ((hkeys e.1).mp (hdef e he).1),
     lookup_buildNodeMap_isSome ((hkeys e.2.1).mp (hdef e he).2)⟩)
  have hwemem : ∀ t ∈ (es.map (fun e =>
      ((dictLookup (buildNodeMap nodes) e.1).getD 0,
       (dictLookup (buildNodeMap nodes) e.2.1).getD 0, e.2.2))),
      t.1 ≠ i ∧ t.2.1 ≠ i := by
    intro t ht
    obtain ⟨e, he, hu, hv, _⟩ := mapEdges_mem hwe t ht
    exact ⟨hnoti e.1 t.1 hu, hnoti e.2.1 t.2.1 hv⟩
  refine ⟨ws, _, hws, hwe,
    generate_input_file_eq hN hE (writeContent_eq hws hwe), ?_, ?_, hwemem, ?_⟩
  · -- the duplicated name resolves to a strictly later index
    have hmem : name ∈ nodes := by
      obtain ⟨hl, hv⟩ := List.getElem?_eq_some.mp hi
      exact hv ▸ List.getElem_mem hl
    obtain ⟨k, hk⟩ := Option.isSome_iff_exists.mp
      (lookup_buildNodeMap_isSome hmem)
    obtain ⟨hkval, hlast⟩ := lookup_buildNodeMap_last hk
    refine ⟨k, hk, ?_, hkval, hlast⟩
    rcases Nat.lt_trichotomy i k with h | heq | h
    · exact h
    · exact absurd heq (Ne.symm (hnoti name k hk))
    · exact absurd hi (hlast i h)
  · -- the earlier occurrence's index keeps the initial weight 0
    have huni : ∀ p ∈ buildNodeMap nodes, p.2 ≠ i := by
      intro p hp
      exact hnoti p.1 p.2
        (dictLookup_of_mem_nodup (buildNodeMap nodes)
          (buildNodeMap_keys_nodup nodes) p hp)
    rw [huntouched i huni, List.getElem?_replicate, if_pos hilt]
  · -- with V > 1 the written graph is disconnected
    intro hV hcon
    set we := es.map (fun e =>
      ((dictLookup (buildNodeMap nodes) e.1).getD 0,
       (dictLookup (buildNodeMap nodes) e.2.1).getD 0, e.2.2)) with hwedef
    have hb : ∃ b, b < nodes.length ∧ b ≠ i := by
      rcases Nat.eq_zero_or_pos i with rfl | hpos
      · exact ⟨1, hV, Nat.one_ne_zero⟩
      · exact ⟨0, Nat.lt_trans Nat.zero_lt_one hV, Nat.ne_of_lt hpos⟩
    obtain ⟨b, hblt, hbne⟩ := hb
    have hreach := hcon i hilt b hblt
    rcases Relation.ReflTransGen.cases_head hreach with heq | ⟨c, hadj, _⟩
    · exact hbne heq.symm
    · obtain ⟨e, he, hcase⟩ := hadj
      rcases hcase with ⟨h1, _⟩ | ⟨_, h2⟩
      · exact (hwemem e he).1 h1
      · exact (hwemem e he).2 h2

/-- Witness for C9: `A` is defined twice (`A:1`, later `A:3`). -/
theorem C9_witness :
    ∃ ws we,
      buildWeightList (["A", "B", "A"] : List String).length
        (buildNodeMap ["A", "B", "A"]) [("A", 3), ("B", 2)] = some ws ∧
      mapEdges (buildNodeMap ["A", "B", "A"]) [("A", "B", 4)] = some we ∧
      generate_input_file "A:1\nB:2\nA:3" "A,B,4" = some
        (natToString (["A", "B", "A"] : List String).length ++ " "
          ++ natToString ([("A", "B", (4:Int))] :
            List (String × String × Int)).length ++ "\n"
          ++ pyJoin " " (ws.map intToString) ++ "\n"
          ++ String.join (we.map (fun t =>
              natToString t.1 ++ " " ++ natToString t.2.1 ++ " "
              ++ intToString t.2.2 ++ "\n")),
          ["A", "B", "A"], [("A", 3), ("B", 2)]) ∧
      (∃ k, dictLookup (buildNodeMap ["A", "B", "A"]) "A" = some k ∧
        0 < k ∧ (["A", "B", "A"] : List String)[k]? = some "A" ∧
        ∀ m, k < m → (["A", "B", "A"] : List String)[m]? ≠ some "A") ∧
      ws[0]? = some 0 ∧
      (∀ t ∈ we, t.1 ≠ 0 ∧ t.2.1 ≠ 0) ∧
      (1 < (["A", "B", "A"] : List String).length →
        ¬ connectedGraph (["A", "B", "A"] : List String).length we) :=
  C9_duplicate_ids_give_dead_index "A:1\nB:2\nA:3" "A,B,4"
    ["A", "B", "A"] [("A", 3), ("B", 2)] [("A", "B", 4)] 0 2 "A"
    (by decide) (by decide) (by decide) (by decide) (by decide)

/-- **C10.**  For pairwise-distinct node IDs, the index-to-name map of
`parse_c_output` (`idxName`) and the name-to-index map of
`generate_input_file` (`buildNodeMap`) are mutually inverse, so every edge
over in-range indices is displayed with the original node IDs; an index
outside the node list falls back to its decimal string. -/
theorem C10_name_maps_inverse (nodes : List String) (hnd : nodes.Nodup) :
    (∀ i (h : i < nodes.length),
      dictLookup (buildNodeMap nodes) (nodes.get ⟨i, h⟩) = some i ∧
      idxName nodes (Int.ofNat i) = nodes.get ⟨i, h⟩) ∧
    (∀ name k, dictLookup (buildNodeMap nodes) name = some k →
      ∃ h : k < nodes.length, nodes.get ⟨k, h⟩ = name ∧
        idxName nodes (Int.ofNat k) = name) ∧
    (∀ z : Int, z < 0 ∨ (nodes.length : Int) ≤ z →
      idxName nodes z = intToString z) := by
  have hidx : ∀ i (h : i < nodes.length),
      idxName nodes (Int.ofNat i) = nodes.get ⟨i, h⟩ := by
    intro i h
    have hcond : 0 ≤ Int.ofNat i ∧ (Int.ofNat i).toNat < nodes.length := by
      constructor
      · exact Int.ofNat_nonneg i
      · simpa using h
    rw [idxName, dif_pos hcond]
    congr 1
  refine ⟨fun i h => ⟨lookup_buildNodeMap_nodup hnd h, hidx i h⟩, ?_, ?_⟩
  · intro name k hk
    obtain ⟨hkval, _⟩ := lookup_buildNodeMap_last hk
    obtain ⟨hlt, hval⟩ := List.getElem?_eq_some.mp hkval
    exact ⟨hlt, hval, by rw [hidx k hlt]; exact hval⟩
  · intro z hz
    have hn : ¬ (0 ≤ z ∧ z.toNat < nodes.length) := by
      rintro ⟨h1, h2⟩
      rcases hz with h | h <;> omega
    rw [idxName, dif_neg hn]

/-- Witness for C10 on the node list `["A", "B"]`. -/
theorem C10_witness :
    dictLookup (buildNodeMap ["A", "B"]) "B" = some 1 ∧
    idxName ["A", "B"] (Int.ofNat 1) = "B" ∧
    idxName ["A", "B"] (-1) = intToString (-1) := by
  have h := C10_name_maps_inverse ["A", "B"] (by decide)
  refine ⟨?_, ?_, h.2.2 (-1) (Or.inl (by decide))⟩
  · have h1 := (h.1 1 (by decide)).1
    simpa using h1
  · have h2 := (h.1 1 (by decide)).2
    simpa using h2

/-- **C3.**  When the parsed solver output has total cost equal to the
sentinel `-1`, the app reports the graph as disconnected: the display is the
`disconnected` error, which carries no spanning-tree edge list and no
success total. -/
theorem C3_sentinel_reports_disconnected (nstr estr : String)
    (p : ProcOutcome) (content : String) (nodes : List String)
    (nw : List (String × Int)) (out : String) (eds : List MstEdge)
    (hgen : generate_input_file nstr estr = some (content, nodes, nw))
    (hrun : run_c_solver p = some out)
    (hne : ¬ out = "")
    (hparse : parse_c_output out nodes = some (some (-1), eds)) :
    button_handler nstr estr p = ⟨.disconnected, true, true⟩ := by
  rw [button_handler]
  simp only [hgen, hrun, if_neg hne, hparse, if_pos]

/-- Witness for C3: a solver output carrying `TOTAL_COST:-1`. -/
theorem C3_witness :
    button_handler "A:1\nB:2" "A,B,3"
      (ProcOutcome.exited 0 "TOTAL_COST:-1\nMST_EDGES_START\nMST_EDGES_END" "")
      = ⟨.disconnected, true, true⟩ :=
  C3_sentinel_reports_disconnected "A:1\nB:2" "A,B,3"
    (ProcOutcome.exited 0 "TOTAL_COST:-1\nMST_EDGES_START\nMST_EDGES_END" "")
    "2 1\n1 2\n0 1 3\n" ["A", "B"] [("A", 1), ("B", 2)]
    "TOTAL_COST:-1\nMST_EDGES_START\nMST_EDGES_END" []
    (by decide) (by decide) (by decide) (by decide)

/-- **C4.**  A nonzero solver exit status or a missing executable makes
`run_c_solver` return `None`, and under a `None` result the report body is
never parsed and never displayed as a solution. -/
theorem C4_solver_failure_guard (p : ProcOutcome)
    (hfail : (∃ c so se, p = ProcOutcome.exited c so se ∧ c ≠ 0) ∨
      p = ProcOutcome.notFound) :
    run_c_solver p = none ∧
    ∀ nstr estr : String,
      (button_handler nstr estr p).outputParsed = false ∧
      ∀ t eds, (button_handler nstr estr p).display ≠ Display.success t eds := by
  have hrun : run_c_solver p = none := by
    rcases hfail with ⟨c, so, se, rfl, hc⟩ | rfl
    · rw [run_c_solver, if_neg hc]
    · rfl
  refine ⟨hrun, ?_⟩
  intro nstr estr
  rw [button_handler]
  cases hgen : generate_input_file nstr estr with
  | none => exact ⟨rfl, fun t eds h => Display.noConfusion h⟩
  | some q =>
    obtain ⟨c, nodes, nw⟩ := q
    simp only [hrun]
    exact ⟨by simp, fun t eds h => Display.noConfusion h⟩

/-- Witness for C4: exit code 1. -/
theorem C4_witness :
    run_c_solver (ProcOutcome.exited 1 "garbage" "err") = none ∧
    (button_handler "A:1" "A,A,1"
      (ProcOutcome.exited 1 "garbage" "err")).outputParsed = false ∧
    ∀ t eds, (button_handler "A:1" "A,A,1"
      (ProcOutcome.exited 1 "garbage" "err")).display ≠
        Display.success t eds := by
  have h := C4_solver_failure_guard (ProcOutcome.exited 1 "garbage" "err")
    (Or.inl ⟨1, "garbage", "err", rfl, by decide⟩)
  exact ⟨h.1, (h.2 "A:1" "A,A,1").1, (h.2 "A:1" "A,A,1").2⟩

/-! ## Helper lemmas: splitting and `pyInt` (for `parse_c_output`) -/

theorem splitOnChar_no_sep {c : Char} :
    ∀ {l : List Char}, c ∉ l → splitOnChar c l = [l] := by
  intro l
  induction l with
  | nil => intro _; rfl
  | cons x xs ih =>
    intro h
    have hx : ¬ x = c := fun he => h (he ▸ List.mem_cons_self x xs)
    have hxs : c ∉ xs := fun hm => h (List.mem_cons_of_mem x hm)
    rw [splitOnChar, if_neg hx, ih hxs]

theorem splitOnChar_append_sep {c : Char} :
    ∀ {xs : List Char} (ys : List Char), c ∉ xs →
      splitOnChar c (xs ++ c :: ys) = xs :: splitOnChar c ys := by
  intro xs
  induction xs with
  | nil => intro ys _; rw [List.nil_append, splitOnChar, if_pos rfl]
  | cons x xs ih =>
    intro ys h
    have hx : ¬ x = c := fun he => h (he ▸ List.mem_cons_self x xs)
    have hxs : c ∉ xs := fun hm => h (List.mem_cons_of_mem x hm)
    rw [List.cons_append, splitOnChar, if_neg hx, ih ys hxs]

theorem mem_dropWhile_of_neg {p : Char → Bool} {x : Char} :
    ∀ {l : List Char}, x ∈ l → p x = false → x ∈ l.dropWhile p := by
  intro l
  induction l with
  | nil => intro h _; cases h
  | cons y ys ih =>
    intro h hpx
    rw [List.dropWhile_cons]
    split
    · next hpy =>
      rcases List.mem_cons.mp h with rfl | h'
      · rw [hpx] at hpy; cases hpy
      · exact ih h' hpx
    · exact h

theorem mem_pyStrip {s : String} {x : Char} (hx : x ∈ s.data)
    (hw : x.isWhitespace = false) : x ∈ (pyStrip s).data := by
  rw [pyStrip]
  exact List.mem_reverse.mpr (mem_dropWhile_of_neg
    (List.mem_reverse.mpr (mem_dropWhile_of_neg hx hw)) hw)

theorem pyInt_cons {s : String} {c : Char} {rest : List Char}
    (h : (pyStrip s).data = c :: rest) :
    pyInt s =
      if c = '-' then
        if rest ≠ [] ∧ rest.all Char.isDigit then
          some (-(digitsToNat rest : Int))
        else none
      else if c = '+' then
        if rest ≠ [] ∧ rest.all Char.isDigit then
          some ((digitsToNat rest : Int))
        else none
      else if (c :: rest).all Char.isDigit then
        some ((digitsToNat (c :: rest) : Int))
      else none := by
  rw [pyInt, h]

theorem pyInt_no_colon {s : String} {t : Int} (h : pyInt s = some t) :
    ':' ∉ s.data := by
  intro hc
  have hcs : ':' ∈ (pyStrip s).data := mem_pyStrip hc (by decide)
  cases hstr : (pyStrip s).data with
  | nil => rw [hstr] at hcs; cases hcs
  | cons c rest =>
    rw [pyInt_cons hstr] at h
    rw [hstr] at hcs
    by_cases hminus : c = '-'
    · rw [if_pos hminus] at h
      have hdig : rest.all Char.isDigit = true := by
        by_cases hcond : rest ≠ [] ∧ rest.all Char.isDigit = true
        · exact hcond.2
        · rw [if_neg hcond] at h; cases h
      rcases List.mem_cons.mp hcs with he | hm
      · subst hminus; exact absurd he (by decide)
      · have := List.all_eq_true.mp hdig ':' hm
        cases this
    · rw [if_neg hminus] at h
      by_cases hplus : c = '+'
      · rw [if_pos hplus] at h
        have hdig : rest.all Char.isDigit = true := by
          by_cases hcond : rest ≠ [] ∧ rest.all Char.isDigit = true
          · exact hcond.2
          · rw [if_neg hcond] at h; cases h
        rcases List.mem_cons.mp hcs with he | hm
        · subst hplus; exact absurd he (by decide)
        · have := List.all_eq_true.mp hdig ':' hm
          cases this
      · rw [if_neg hplus] at h
        have hdig : (c :: rest).all Char.isDigit = true := by
          by_cases hcond : (c :: rest).all Char.isDigit = true
          · exact hcond
          · rw [if_neg hcond] at h; cases h
        have := List.all_eq_true.mp hdig ':' hcs
        cases this

theorem isPrefixOf_append (l r : List Char) : l.isPrefixOf (l ++ r) = true := by
  induction l with
  | nil => simp [List.isPrefixOf]
  | cons x xs ih => simp [List.isPrefixOf, ih]

theorem pyStartsWith_append (pre rest : String) :
    pyStartsWith (pre ++ rest) pre = true := by
  rw [pyStartsWith]
  have hdata : (pre ++ rest).data = pre.data ++ rest.data := rfl
  rw [hdata]
  exact isPrefixOf_append pre.data rest.data

theorem pySplit_total_line (rest : String) (h : ':' ∉ rest.data) :
    pySplit ("TOTAL_COST:" ++ rest) ':' = ["TOTAL_COST", rest] := by
  rw [pySplit]
  have hdata : ("TOTAL_COST:" ++ rest).data =
      "TOTAL_COST".data ++ ':' :: rest.data := rfl
  rw [hdata, splitOnChar_append_sep rest.data (by decide),
    splitOnChar_no_sep h]
  rfl

/-! ## Helper lemmas: the `parse_c_output` state machine -/

theorem parseOutputStep_total (names : List String)
    (st : Option Int × List MstEdge × Bool) (rest : String) (t : Int)
    (ht : pyInt rest = some t) :
    parseOutputStep names st ("TOTAL_COST:" ++ rest) =
      some (some t, st.2.1, st.2.2) := by
  rw [parseOutputStep, if_pos (pyStartsWith_append "TOTAL_COST:" rest),
    pySplit_total_line rest (pyInt_no_colon ht)]
  have hgetD : (["TOTAL_COST", rest].getD 1 "") = rest := rfl
  rw [hgetD, ht]

theorem parseOutputStep_start (names : List String)
    (st : Option Int × List MstEdge × Bool) :
    parseOutputStep names st "MST_EDGES_START" =
      some (st.1, st.2.1, true) := by
  rw [parseOutputStep, if_neg, if_pos rfl]
  decide

theorem parseOutputStep_end (names : List String)
    (st : Option Int × List MstEdge × Bool) :
    parseOutputStep names st "MST_EDGES_END" =
      some (st.1, st.2.1, false) := by
  rw [parseOutputStep, if_neg, if_neg, if_pos rfl]
  · decide
  · decide

theorem parseOutputStep_plain (names : List String)
    (st : Option Int × List MstEdge × Bool) (l : String)
    (h1 : pyStartsWith l "TOTAL_COST:" = false)
    (h2 : l ≠ "MST_EDGES_START") (h3 : l ≠ "MST_EDGES_END") :
    parseOutputStep names st l =
      if st.2.2 then
        match recordOfLine names l with
        | some r => some (st.1, st.2.1 ++ [r], st.2.2)
        | none => some st
      else some st := by
  rw [parseOutputStep, if_neg, if_neg h2, if_neg h3]
  rw [h1]
  exact Bool.false_ne_true

theorem parseOutputGo_skip (names : List String) :
    ∀ (seg : List String) (tot : Option Int) (eds : List MstEdge),
      (∀ l ∈ seg, pyStartsWith l "TOTAL_COST:" = false ∧
        l ≠ "MST_EDGES_START" ∧ l ≠ "MST_EDGES_END") →
      parseOutputGo names seg (tot, eds, false) = some (tot, eds, false) := by
  intro seg
  induction seg with
  | nil => intro tot eds _; rfl
  | cons l rest ih =>
    intro tot eds h
    obtain ⟨h1, h2, h3⟩ := h l (List.mem_cons_self l rest)
    rw [parseOutputGo,
      parseOutputStep_plain names (tot, eds, false) l h1 h2 h3]
    exact ih tot eds (fun x hx => h x (List.mem_cons_of_mem l hx))

theorem parseOutputGo_collect (names : List String) :
    ∀ (seg : List String) (tot : Option Int) (eds : List MstEdge),
      (∀ l ∈ seg, pyStartsWith l "TOTAL_COST:" = false ∧
        l ≠ "MST_EDGES_START" ∧ l ≠ "MST_EDGES_END") →
      parseOutputGo names seg (tot, eds, true) =
        some (tot, eds ++ seg.filterMap (recordOfLine names), true) := by
  intro seg
  induction seg with
  | nil => intro tot eds _; simp [parseOutputGo]
  | cons l rest ih =>
    intro tot eds h
    obtain ⟨h1, h2, h3⟩ := h l (List.mem_cons_self l rest)
    cases hr : recordOfLine names l with
    | some r =>
      have hstep : parseOutputStep names (tot, eds, true) l =
          some (tot, eds ++ [r], true) := by
        rw [parseOutputStep_plain names (tot, eds, true) l h1 h2 h3, hr]
        rfl
      rw [parseOutputGo]
      simp only [hstep]
      rw [ih tot (eds ++ [r]) (fun x hx => h x (List.mem_cons_of_mem l hx)),
        List.filterMap_cons, hr]
      simp
    | none =>
      have hstep : parseOutputStep names (tot, eds, true) l =
          some (tot, eds, true) := by
        rw [parseOutputStep_plain names (tot, eds, true) l h1 h2 h3, hr]
        rfl
      rw [parseOutputGo]
      simp only [hstep]
      rw [ih tot eds (fun x hx => h x (List.mem_cons_of_mem l hx)),
        List.filterMap_cons, hr]

theorem parseOutputGo_append (names : List String) :
    ∀ (l1 l2 : List String) (st : Option Int × List MstEdge × Bool),
      parseOutputGo names (l1 ++ l2) st =
        (parseOutputGo names l1 st).bind
          (fun st2 => parseOutputGo names l2 st2) := by
  intro l1
  induction l1 with
  | nil => intro l2 st; rfl
  | cons x xs ih =>
    intro l2 st
    rw [List.cons_append, parseOutputGo, parseOutputGo]
    cases hs : parseOutputStep names st x with
    | none => rfl
    | some st2 => exact ih l2 st2

theorem parseOutputGo_cons (names : List String) (l : String)
    (rest : List String) (st : Option Int × List MstEdge × Bool) :
    parseOutputGo names (l :: rest) st =
      (parseOutputStep names st l).bind
        (fun st2 => parseOutputGo names rest st2) := by
  rw [parseOutputGo]
  cases hs : parseOutputStep names st l with
  | none => rfl
  | some st2 => rfl

/-- **C2.**  For a solver output whose (stripped) lines consist of: anything
without markers, the `TOTAL_COST:` line with integer payload `t`, more
marker-free lines, `MST_EDGES_START`, the block `mid`, `MST_EDGES_END`, and
a marker-free tail, `parse_c_output` returns `t` as total cost and exactly
one record per line of `mid` that parses as six comma-separated integers —
interpreted, in order, as source index, destination index, raw edge weight,
source vertex weight, destination vertex weight, effective cost (see
`recordOfLine`/`mkMstEdge`) — in line order. -/
theorem parseOutputGo_nil (names : List String)
    (st : Option Int × List MstEdge × Bool) :
    parseOutputGo names [] st = some st := rfl

theorem C2_parse_c_output_structure (output : String) (names : List String)
    (pre1 pre2 mid post : List String) (rest : String) (t : Int)
    (hsplit : pySplit (pyStrip output) '\n' =
      pre1 ++ ["TOTAL_COST:" ++ rest] ++ pre2 ++ ["MST_EDGES_START"] ++ mid
        ++ ["MST_EDGES_END"] ++ post)
    (ht : pyInt rest = some t)
    (hother : ∀ l, l ∈ pre1 ∨ l ∈ pre2 ∨ l ∈ mid ∨ l ∈ post →
      pyStartsWith l "TOTAL_COST:" = false ∧ l ≠ "MST_EDGES_START" ∧
        l ≠ "MST_EDGES_END") :
    parse_c_output output names =
      some (some t, mid.filterMap (recordOfLine names)) := by
  have hstep_total : ∀ st : Option Int × List MstEdge × Bool,
      parseOutputStep names st ("TOTAL_COST:" ++ rest) =
        some (some t, st.2.1, st.2.2) :=
    fun st => parseOutputStep_total names st rest t ht
  have hskip1 : ∀ (tot : Option Int) (eds : List MstEdge),
      parseOutputGo names pre1 (tot, eds, false) = some (tot, eds, false) :=
    fun tot eds => parseOutputGo_skip names pre1 tot eds
      (fun l hl => hother l (Or.inl hl))
  have hskip2 : ∀ (tot : Option Int) (eds : List MstEdge),
      parseOutputGo names pre2 (tot, eds, false) = some (tot, eds, false) :=
    fun tot eds => parseOutputGo_skip names pre2 tot eds
      (fun l hl => hother l (Or.inr (Or.inl hl)))
  have hcollect : ∀ (tot : Option Int) (eds : List MstEdge),
      parseOutputGo names mid (tot, eds, true) =
        some (tot, eds ++ mid.filterMap (recordOfLine names), true) :=
    fun tot eds => parseOutputGo_collect names mid tot eds
      (fun l hl => hother l (Or.inr (Or.inr (Or.inl hl))))
  have hskip3 : ∀ (tot : Option Int) (eds : List MstEdge),
      parseOutputGo names post (tot, eds, false) = some (tot, eds, false) :=
    fun tot eds => parseOutputGo_skip names post tot eds
      (fun l hl => hother l (Or.inr (Or.inr (Or.inr hl))))
  rw [parse_c_output, hsplit]
  simp only [parseOutputGo_append, List.singleton_append, parseOutputGo_cons,
    parseOutputGo_nil, hskip1, hskip2, hskip3, hcollect, hstep_total,
    parseOutputStep_start, parseOutputStep_end, Option.some_bind,
    Option.map_some', List.nil_append]

/-- Witness for C2: a report with total cost 10, one well-formed edge line
and one malformed line inside the block. -/
theorem C2_witness :
    parse_c_output
      "TOTAL_COST:10\nMST_EDGES_START\n0,1,2,3,4,9\nbadline\nMST_EDGES_END"
      ["A", "B"] =
      some (some 10, (["0,1,2,3,4,9", "badline"] : List String).filterMap
        (recordOfLine ["A", "B"])) :=
  C2_parse_c_output_structure
    "TOTAL_COST:10\nMST_EDGES_START\n0,1,2,3,4,9\nbadline\nMST_EDGES_END"
    ["A", "B"] [] [] ["0,1,2,3,4,9", "badline"] [] "10" 10
    (by decide) (by decide)
    (by
      intro l hl
      rcases hl with h | h | h | h
      · exact absurd h (List.not_mem_nil l)
      · exact absurd h (List.not_mem_nil l)
      · simp only [List.mem_cons, List.not_mem_nil, or_false] at h
        rcases h with rfl | rfl
        · exact ⟨by decide, by decide, by decide⟩
        · exact ⟨by decide, by decide, by decide⟩
      · exact absurd h (List.not_mem_nil l))
